import Mathlib

/-!
Verification of the `PostgresManager` data-access component
(`postgres_da_ai_agent/modules/db.py`) against its natural-language
specification.

The development is a shallow embedding of the Python class:

* The database server is modelled by a `Catalog` value holding the rows of
  the catalog views the introspection queries read
  (`information_schema.foreign_tables`, `pg_foreign_table`, `pg_attribute`,
  `pg_description`, `information_schema.foreign_table_constraints`,
  `information_schema.table_constraints`,
  `information_schema.constraint_column_usage`).  Executing a query is
  modelled by evaluating the query's relational-algebra meaning (joins as
  nested filtered products, `WHERE` as a filter, `ORDER BY` as a stable
  sort, `LIMIT n` as `take n`, a scalar subquery as a zero/one/many case
  split) over those rows.
* Python strings are Lean `String`s; `str.rstrip(",\n")`, `sep.join`,
  `dict` insertion and `json.dumps` are modelled explicitly below.
* The connection/cursor pair of the manager is modelled by a record of two
  `Option HandleState` fields; the driver's `close()` on a handle is total
  (closing an already closed psycopg2 handle is permitted).
* Fallible operations return `Except String`.
-/

set_option linter.unusedVariables false

namespace Db

/-! ## Python string / list / dict primitives -/

/-- Python `sep.join(l)`. -/
def pyJoin (sep : String) : List String → String
  | [] => ""
  | [x] => x
  | x :: y :: xs => x ++ sep ++ pyJoin sep (y :: xs)

/-- The characters stripped by the source's `rstrip(",\n")`. -/
def isStripChar (c : Char) : Bool := c == ',' || c == '\n'

/-- Remove the maximal trailing run of characters satisfying `isStripChar`. -/
def rstripList (l : List Char) : List Char :=
  (l.reverse.dropWhile isStripChar).reverse

/-- Python `s.rstrip(",\n")`. -/
def pyRstripCommaNl (s : String) : String := String.mk (rstripList s.data)

/-- `List.flatMap`, written out so that all recursions in this file are
structural. -/
def listFlatMap (f : α → List β) : List α → List β
  | [] => []
  | a :: as => f a ++ listFlatMap f as

/-- Python `d[k] = v` on a `dict` represented as an insertion-ordered
association list: an existing key keeps its position and gets the new
value, a new key is appended at the end. -/
def pyDictInsert (d : List (String × α)) (k : String) (v : α) :
    List (String × α) :=
  if d.any (fun p => p.1 == k) then
    d.map (fun p => if p.1 == k then (k, v) else p)
  else d ++ [(k, v)]

/-- Python `dict(pairs)` (e.g. `dict(zip(columns, row))`). -/
def pyDictOfPairs (l : List (String × α)) : List (String × α) :=
  l.foldl (fun d p => pyDictInsert d p.1 p.2) []

/-- Python `d[k]` lookup (as an `Option`): first pair with the key. -/
def pyDictGet? (d : List (String × α)) (k : String) : Option α :=
  (d.find? (fun p => p.1 == k)).map (fun p => p.2)

/-- Insertion into a sorted list, used by `insertionSort`. -/
def insertSorted (le : α → α → Bool) (x : α) : List α → List α
  | [] => [x]
  | y :: ys => if le x y then x :: y :: ys else y :: insertSorted le x ys

/-- A stable structural sort modelling SQL `ORDER BY`. -/
def insertionSort (le : α → α → Bool) : List α → List α
  | [] => []
  | x :: xs => insertSorted le x (insertionSort le xs)

/-! ## The connection/cursor lifecycle (`__init__`, `__enter__`, `__exit__`,
`connect_with_url`, `close`) -/

/-- The state of a driver handle (connection or cursor) that the manager
holds a reference to. -/
inductive HandleState where
  | hopen
  | hclosed
deriving DecidableEq, Repr

/-- The mutable attributes of a `PostgresManager` object: `self.conn` and
`self.cur`, each `None` or a reference to a driver handle (whose current
state we store in place). -/
structure PostgresManager where
  conn : Option HandleState
  cur : Option HandleState
deriving DecidableEq, Repr

namespace PostgresManager

/-- `__init__`: `self.conn = None; self.cur = None`. -/
def init : PostgresManager := ⟨Option.none, Option.none⟩

/-- psycopg2 `handle.close()`: always succeeds, also on an already closed
handle, and leaves the handle closed. -/
def handleClose (h : HandleState) : Except String HandleState :=
  Except.ok HandleState.hclosed

/-- `connect_with_url`: a successful `psycopg2.connect` followed by
`self.conn.cursor()` leaves both attributes set to open handles. -/
def connect_with_url (m : PostgresManager) : PostgresManager :=
  ⟨some HandleState.hopen, some HandleState.hopen⟩

/-- `close`: `if self.cur: self.cur.close()` then
`if self.conn: self.conn.close()`.  The attributes are NOT reset to
`None`; the handles they reference become closed. -/
def close (m : PostgresManager) : Except String PostgresManager := do
  let cur ← match m.cur with
    | some h => (handleClose h).map some
    | Option.none => Except.ok Option.none
  let conn ← match m.conn with
    | some h => (handleClose h).map some
    | Option.none => Except.ok Option.none
  Except.ok ⟨conn, cur⟩

/-- `__enter__`: `return self`. -/
def enterCtx (m : PostgresManager) : PostgresManager := m

/-- `__exit__`: the same body as `close`; it returns `None`, which Python
treats as falsy, so exceptions are never suppressed (`false` below). -/
def exitCtx (m : PostgresManager) : Except String (PostgresManager × Bool) := do
  let cur ← match m.cur with
    | some h => (handleClose h).map some
    | Option.none => Except.ok Option.none
  let conn ← match m.conn with
    | some h => (handleClose h).map some
    | Option.none => Except.ok Option.none
  Except.ok (⟨conn, cur⟩, false)

/-- The semantics of the Python `with` statement specialised to this
manager: run `__enter__`, run the body (which returns the mutated manager
and either a value or a raised error), then run `__exit__`; when the body
raised and `__exit__` returned a falsy value the error propagates. -/
def runWith (m : PostgresManager)
    (body : PostgresManager → PostgresManager × Except String α) :
    PostgresManager × Except String (Option α) :=
  let m1 := enterCtx m
  let (m2, r) := body m1
  match exitCtx m2 with
  | Except.error e2 => (m2, Except.error e2)
  | Except.ok (m3, suppress) =>
    match r with
    | Except.ok a => (m3, Except.ok (some a))
    | Except.error e =>
      if suppress then (m3, Except.ok Option.none) else (m3, Except.error e)

/-- The manager states reachable through the component's own lifecycle
operations. -/
inductive Reachable : PostgresManager → Prop
  | init : Reachable init
  | connect (m : PostgresManager) : Reachable m →
      Reachable (connect_with_url m)
  | close_ok (m m' : PostgresManager) : Reachable m →
      close m = Except.ok m' → Reachable m'

end PostgresManager

/-! ## The catalog rows read by the introspection queries -/

/-- A row of `information_schema.foreign_tables` (the columns the queries
use). -/
structure ForeignTableRow where
  foreign_table_schema : String
  foreign_table_name : String
deriving DecidableEq, Repr

/-- A row of `pg_attribute` (the columns the definition query uses);
`fmtType` holds the server's `format_type(atttypid, atttypmod)` rendering
for the row. -/
structure PgAttributeRow where
  attrelid : Nat
  attnum : Int
  attname : String
  fmtType : String
deriving DecidableEq, Repr

/-- A row of `pg_description` (the columns the definition query uses). -/
structure PgDescriptionRow where
  objoid : Nat
  objsubid : Int
  description : String
deriving DecidableEq, Repr

/-- A row of `information_schema.foreign_table_constraints` (the columns
the related-tables queries use). -/
structure ForeignTableConstraintRow where
  foreign_table_schema : String
  foreign_table_name : String
  unique_constraint_schema : String
  unique_constraint_name : String
  referenced_table_schema : String
  referenced_table_name : String
  constraint_type : String
deriving DecidableEq, Repr

/-- A row of `information_schema.table_constraints` (the columns the
related-tables subquery uses). -/
structure TableConstraintRow where
  constraint_schema : String
  table_name : String
  constraint_type : String
  constraint_name : String
deriving DecidableEq, Repr

/-- A row of `information_schema.constraint_column_usage` (only its
`constraint_name` is used). -/
structure CcuRow where
  constraint_name : String
deriving DecidableEq, Repr

/-- The database state visible to the component: the rows of every catalog
view its queries read, plus the server's `oid::regclass::text` rendering. -/
structure Catalog where
  foreign_tables : List ForeignTableRow
  pg_foreign_table : List Nat
  regclassText : Nat → String
  pg_attribute : List PgAttributeRow
  pg_description : List PgDescriptionRow
  foreign_table_constraints : List ForeignTableConstraintRow
  table_constraints : List TableConstraintRow
  constraint_column_usage : List CcuRow

/-! ## `get_all_table_names` -/

/-- The result rows of
`SELECT foreign_table_name FROM information_schema.foreign_tables
WHERE foreign_table_schema = 'akeyless';` (driver order = scan order). -/
def all_table_names_rows (cat : Catalog) : List (List String) :=
  (cat.foreign_tables.filter
      (fun ft => ft.foreign_table_schema == "akeyless")).map
    (fun ft => [ft.foreign_table_name])

/-- `get_all_table_names`: `[row[0] for row in self.cur.fetchall()]`. -/
def get_all_table_names (cat : Catalog) : List String :=
  (all_table_names_rows cat).map (fun row => row.headD "")

/-! ## `get_table_definition` -/

/-- One tuple of the joined relations of `get_def_stmt` before projection:
`information_schema.foreign_tables ft JOIN pg_foreign_table pft JOIN
pg_attribute a LEFT JOIN pg_description d`. -/
structure DefJoinRow where
  ft : ForeignTableRow
  relid : Nat
  a : PgAttributeRow
  d : Option PgDescriptionRow
deriving DecidableEq, Repr

/-- The `LEFT JOIN pg_description d ON a.attrelid = d.objoid AND
a.attnum = d.objsubid` contribution for one attribute row: the matching
description rows, or a single null row when none match. -/
def descrRows (cat : Catalog) (a : PgAttributeRow) :
    List (Option PgDescriptionRow) :=
  let ms := cat.pg_description.filter
    (fun d => a.attrelid == d.objoid && a.attnum == d.objsubid)
  if ms.isEmpty then [Option.none] else ms.map some

/-- The joined tuples of `get_def_stmt`:
`ft JOIN pft ON ft.foreign_table_name = pft.ftrelid::regclass::text
JOIN a ON a.attrelid = pft.ftrelid LEFT JOIN d ...`. -/
def defJoinRows (cat : Catalog) : List DefJoinRow :=
  listFlatMap
    (fun ft =>
      listFlatMap
        (fun relid =>
          listFlatMap
            (fun a => (descrRows cat a).map (fun d => DefJoinRow.mk ft relid a d))
            (cat.pg_attribute.filter (fun a => a.attrelid == relid)))
        (cat.pg_foreign_table.filter
          (fun relid => ft.foreign_table_name == cat.regclassText relid)))
    cat.foreign_tables

/-- The `ORDER BY ft.foreign_table_schema, ft.foreign_table_name, a.attnum`
comparison. -/
def defJoinLE (x y : DefJoinRow) : Bool :=
  match compare x.ft.foreign_table_schema y.ft.foreign_table_schema with
  | Ordering.lt => true
  | Ordering.gt => false
  | Ordering.eq =>
    match compare x.ft.foreign_table_name y.ft.foreign_table_name with
    | Ordering.lt => true
    | Ordering.gt => false
    | Ordering.eq => decide (x.a.attnum ≤ y.a.attnum)

/-- A projected result row of `get_def_stmt`:
`(schema_name, table_name, column_name, column_type, column_description)`;
the source reads `row[2]` (column name) and `row[3]` (column type). -/
structure DefRow where
  schema_name : String
  table_name : String
  column_name : String
  column_type : String
  column_description : Option String
deriving DecidableEq, Repr

/-- The result rows of `get_def_stmt` for a requested `table_name`.  The
statement receives `table_name` as a parameter, but its `WHERE` clause is
only `ft.foreign_table_schema = 'akeyless' AND a.attnum > 0`: nothing in
the query refers to the parameter. -/
def get_def_rows (cat : Catalog) (table_name : String) : List DefRow :=
  let filtered := (defJoinRows cat).filter
    (fun jr => jr.ft.foreign_table_schema == "akeyless" &&
      decide (0 < jr.a.attnum))
  let sorted := insertionSort defJoinLE filtered
  sorted.map (fun jr =>
    ⟨jr.ft.foreign_table_schema, jr.ft.foreign_table_name,
     jr.a.attname, jr.a.fmtType, jr.d.map (fun d => d.description)⟩)

/-- `get_table_definition`: execute `get_def_stmt`, then build
`"CREATE TABLE {} (\n"` plus one `"{} {},\n"` line per row, strip the
trailing `",\n"` characters and append `"\n);"`. -/
def get_table_definition (cat : Catalog) (table_name : String) : String :=
  let rows := get_def_rows cat table_name
  let create_table_stmt := "CREATE TABLE " ++ table_name ++ " (\n"
  let create_table_stmt := rows.foldl
    (fun acc row => acc ++ (row.column_name ++ " " ++ row.column_type ++ ",\n"))
    create_table_stmt
  pyRstripCommaNl create_table_stmt ++ "\n);"

/-- The `"{} {}"` text of one column line (before the `",\n"` separator). -/
def lineStr (row : DefRow) : String :=
  row.column_name ++ " " ++ row.column_type

/-- Character-level view of `lineStr`, used by the `rstrip` lemmas. -/
def lineChars (row : DefRow) : List Char := (lineStr row).data

/-- Character-level view of the loop body of `get_table_definition`: every
line followed by `",\n"`. -/
def linesChars : List DefRow → List Char
  | [] => []
  | r :: rs => lineChars r ++ ',' :: '\n' :: linesChars rs

/-! ## `get_table_definitions_for_prompt` and
`get_table_definition_map_for_embeddings` -/

/-- `get_table_definitions_for_prompt`: collect the definition of every
table name in a list (Python `definitions.append(...)` loop) and join with
`"\n\n"`. -/
def get_table_definitions_for_prompt (cat : Catalog) : String :=
  let table_names := get_all_table_names cat
  let definitions := table_names.foldl
    (fun acc table_name => acc ++ [get_table_definition cat table_name])
    ([] : List String)
  pyJoin "\n\n" definitions

/-- `get_table_definition_map_for_embeddings`: the Python
`definitions[table_name] = self.get_table_definition(table_name)` loop over
`get_all_table_names`. -/
def get_table_definition_map_for_embeddings (cat : Catalog) :
    List (String × String) :=
  let table_names := get_all_table_names cat
  table_names.foldl
    (fun definitions table_name =>
      pyDictInsert definitions table_name (get_table_definition cat table_name))
    []

/-! ## `get_related_tables` -/

/-- The rows of the scalar subquery of the incoming-relations statement:
`SELECT tc.constraint_name FROM information_schema.table_constraints tc
JOIN information_schema.constraint_column_usage ccu ON
ccu.constraint_name = tc.constraint_name WHERE tc.constraint_schema =
'akeyless' AND tc.table_name = %s AND tc.constraint_type =
'FOREIGN KEY'`. -/
def fkSubqueryRows (cat : Catalog) (table : String) : List String :=
  ((listFlatMap
      (fun tc =>
        (cat.constraint_column_usage.filter
            (fun ccu => ccu.constraint_name == tc.constraint_name)).map
          (fun _ => tc))
      cat.table_constraints).filter
    (fun tc => tc.constraint_schema == "akeyless" &&
      tc.table_name == table && tc.constraint_type == "FOREIGN KEY")).map
    (fun tc => tc.constraint_name)

/-- PostgreSQL's evaluation of a scalar subquery used as an expression:
no row gives SQL `NULL`, one row gives its value, several rows raise. -/
def scalarSubquery (rows : List String) : Except String (Option String) :=
  match rows with
  | [] => Except.ok Option.none
  | [x] => Except.ok (some x)
  | _ =>
    Except.error
      "more than one row returned by a subquery used as an expression"

/-- The first statement of the loop body of `get_related_tables`: foreign
tables whose constraint references the given table.  An equality against a
`NULL` subquery result selects nothing; `LIMIT %s` is `take n`. -/
def incomingQuery (cat : Catalog) (table : String) (n : Nat) :
    Except String (List String) :=
  match scalarSubquery (fkSubqueryRows cat table) with
  | Except.error e => Except.error e
  | Except.ok sub =>
    let joined := listFlatMap
      (fun ftc =>
        (cat.foreign_tables.filter
            (fun ft => ft.foreign_table_name == ftc.foreign_table_name &&
              ft.foreign_table_schema == ftc.foreign_table_schema)).map
          (fun ft => (ftc, ft)))
      cat.foreign_table_constraints
    let rows := (joined.filter
      (fun p => p.1.unique_constraint_schema == "akeyless" &&
        (match sub with
         | some c => p.1.unique_constraint_name == c
         | Option.none => false))).map (fun p => p.2.foreign_table_name)
    Except.ok (rows.take n)

/-- The second statement of the loop body of `get_related_tables`: foreign
tables that the given table's foreign-key constraint references;
`LIMIT %s` is `take n`. -/
def outgoingQuery (cat : Catalog) (table : String) (n : Nat) : List String :=
  let joined := listFlatMap
    (fun ftc =>
      (cat.foreign_tables.filter
          (fun ft => ft.foreign_table_name == ftc.referenced_table_name &&
            ft.foreign_table_schema == ftc.referenced_table_schema)).map
        (fun ft => (ftc, ft)))
    cat.foreign_table_constraints
  ((joined.filter
    (fun p => p.1.foreign_table_schema == "akeyless" &&
      p.1.foreign_table_name == table &&
      p.1.constraint_type == "FOREIGN KEY")).map
    (fun p => p.2.foreign_table_name)).take n

/-- The `for table in table_list` loop of `get_related_tables`: run both
lookups and store `related_tables_dict[table] = incoming + outgoing`. -/
def relatedLoop (cat : Catalog) (n : Nat) :
    List String → List (String × List String) →
    Except String (List (String × List String))
  | [], d => Except.ok d
  | table :: rest, d =>
    match incomingQuery cat table n with
    | Except.error e => Except.error e
    | Except.ok related_tables =>
      relatedLoop cat n rest
        (pyDictInsert d table
          (related_tables ++ outgoingQuery cat table n))

/-- `get_related_tables` (the source's default for `n` is 2): run the loop,
flatten the dict's values in key order, and collapse through
`list(set(...))` — modelled by `List.dedup`, whose only guarantees used
below are membership preservation and duplicate removal, since a Python
`set` does not preserve input order. -/
def get_related_tables (cat : Catalog) (table_list : List String) (n : Nat) :
    Except String (List String) :=
  match relatedLoop cat n table_list [] with
  | Except.error e => Except.error e
  | Except.ok related_tables_dict =>
    let related_tables_list := related_tables_dict.foldl
      (fun acc p => acc ++ p.2) []
    Except.ok related_tables_list.dedup

/-! ## `run_sql` and JSON serialization -/

/-- A Python value in a result row: the JSON-native kinds `None`, `bool`,
`int`, `str`; a `datetime` (carrying the text its `isoformat()` returns);
and any other driver value (carrying the text its `str()` returns, e.g. a
`Decimal` or `memoryview`). -/
inductive PyVal where
  | none
  | bool (b : Bool)
  | int (i : Int)
  | str (s : String)
  | datetime (iso : String)
  | other (s : String)
deriving DecidableEq, Repr

/-- Python `str(obj)` for the modelled values. -/
def pyStr : PyVal → String
  | PyVal.none => "None"
  | PyVal.bool b => if b then "True" else "False"
  | PyVal.int i => toString i
  | PyVal.str s => s
  | PyVal.datetime iso => iso
  | PyVal.other s => s

/-- `datetime_handler`: `if isinstance(obj, datetime): return obj.isoformat()`
else `return str(obj)`. -/
def datetime_handler : PyVal → String
  | PyVal.datetime iso => iso
  | obj => pyStr obj

/-- One hexadecimal digit, lowercase, as emitted inside `\uXXXX`. -/
def hexDigit (n : Nat) : Char :=
  (("0123456789abcdef" : String).data.getD n '0')

/-- A `\uXXXX` escape for a code unit below `0x10000`. -/
def uEscape (n : Nat) : String :=
  String.mk ['\\', 'u', hexDigit (n / 4096 % 16), hexDigit (n / 256 % 16),
    hexDigit (n / 16 % 16), hexDigit (n % 16)]

/-- The escaping of one character performed by `json.dumps` (default
`ensure_ascii=True`): the two-character escapes, `\uXXXX` for other
characters outside `0x20..0x7e`, surrogate pairs above `0xffff`. -/
def jsonEscapeChar (c : Char) : String :=
  if c = '"' then "\\\""
  else if c = '\\' then "\\\\"
  else if c = '\n' then "\\n"
  else if c = '\r' then "\\r"
  else if c = '\t' then "\\t"
  else if c = '\x08' then "\\b"
  else if c = '\x0c' then "\\f"
  else if c.toNat < 0x20 then uEscape c.toNat
  else if c.toNat < 0x7f then String.mk [c]
  else if c.toNat < 0x10000 then uEscape c.toNat
  else
    uEscape (0xd800 + (c.toNat - 0x10000) / 1024) ++
      uEscape (0xdc00 + (c.toNat - 0x10000) % 1024)

/-- A Python `str` rendered as a JSON string literal. -/
def jsonQuote (s : String) : String :=
  "\"" ++ String.join (s.data.map jsonEscapeChar) ++ "\""

/-- `json.dumps` on one scalar: native kinds are rendered directly; for any
other object the `default` hook is consulted — its returned `str` is
rendered as a JSON string, and with no hook (`default=None`) `dumps`
raises `TypeError`. -/
def encodeScalar (default : Option (PyVal → String)) :
    PyVal → Except String String
  | PyVal.none => Except.ok "null"
  | PyVal.bool b => Except.ok (if b then "true" else "false")
  | PyVal.int i => Except.ok (toString i)
  | PyVal.str s => Except.ok (jsonQuote s)
  | PyVal.datetime iso =>
    match default with
    | some f => Except.ok (jsonQuote (f (PyVal.datetime iso)))
    | Option.none =>
      Except.error "Object of type datetime is not JSON serializable"
  | PyVal.other s =>
    match default with
    | some f => Except.ok (jsonQuote (f (PyVal.other s)))
    | Option.none => Except.error "Object is not JSON serializable"

/-- `Except`-valued map over a list, failing on the first failure. -/
def exceptMap (f : α → Except String β) : List α → Except String (List β)
  | [] => Except.ok []
  | a :: as => do
    let b ← f a
    let bs ← exceptMap f as
    Except.ok (b :: bs)

/-- One `"key": value` entry of an object, as `json.dumps` prints it. -/
def encodeEntry (default : Option (PyVal → String)) (p : String × PyVal) :
    Except String String :=
  (encodeScalar default p.2).map (fun s => jsonQuote p.1 ++ ": " ++ s)

/-- One row dict rendered by `json.dumps(..., indent=4)` at nesting depth
one: `pad` is the indentation of the opening brace's line. -/
def encodeDictIndented (default : Option (PyVal → String)) (pad : String)
    (d : List (String × PyVal)) : Except String String :=
  match exceptMap (encodeEntry default) d with
  | Except.error e => Except.error e
  | Except.ok [] => Except.ok "\x7b\x7d"
  | Except.ok entries =>
    Except.ok ("\x7b\n" ++
      pyJoin ",\n" (entries.map (fun e => pad ++ "    " ++ e)) ++
      "\n" ++ pad ++ "\x7d")

/-- `json.dumps(list_of_dicts, indent=4, default=...)`. -/
def json_dumps (default : Option (PyVal → String))
    (l : List (List (String × PyVal))) : Except String String :=
  match exceptMap (encodeDictIndented default "    ") l with
  | Except.error e => Except.error e
  | Except.ok [] => Except.ok "[]"
  | Except.ok items =>
    Except.ok ("[\n" ++
      pyJoin ",\n" (items.map (fun s => "    " ++ s)) ++ "\n]")

/-- `run_sql` after the driver produced the column names
(`cur.description`) and the fetched rows: build
`dict(zip(columns, row))` per row and serialize with
`json.dumps(list_of_dicts, indent=4, default=self.datetime_handler)`. -/
def run_sql (columns : List String) (res : List (List PyVal)) :
    Except String String :=
  let list_of_dicts := res.map (fun row => pyDictOfPairs (columns.zip row))
  json_dumps (some datetime_handler) list_of_dicts

/-! ## Example database states used in concrete evaluations -/

/-- Two foreign tables `alpha` and `beta` in schema `akeyless`, one column
each, no descriptions and no constraints. -/
def exCatalog : Catalog where
  foreign_tables := [⟨"akeyless", "alpha"⟩, ⟨"akeyless", "beta"⟩]
  pg_foreign_table := [1, 2]
  regclassText := fun oid => if oid == 1 then "alpha" else "beta"
  pg_attribute := [⟨1, 1, "a_id", "integer"⟩, ⟨2, 1, "b_id", "integer"⟩]
  pg_description := []
  foreign_table_constraints := []
  table_constraints := []
  constraint_column_usage := []

/-- Three foreign tables `a`, `b`, `c` in schema `akeyless`: `b`'s
constraint references `a` (incoming for `a`) and `a`'s foreign key
references `c` (outgoing for `a`). -/
def exCatalogRel : Catalog where
  foreign_tables :=
    [⟨"akeyless", "a"⟩, ⟨"akeyless", "b"⟩, ⟨"akeyless", "c"⟩]
  pg_foreign_table := []
  regclassText := fun _ => ""
  pg_attribute := []
  pg_description := []
  foreign_table_constraints :=
    [⟨"akeyless", "b", "akeyless", "fk_a", "none", "none", "FOREIGN KEY"⟩,
     ⟨"akeyless", "a", "akeyless", "uq_c", "akeyless", "c", "FOREIGN KEY"⟩]
  table_constraints := [⟨"akeyless", "a", "FOREIGN KEY", "fk_a"⟩]
  constraint_column_usage := [⟨"fk_a"⟩]

/-- A catalog whose only foreign table lives in schema `public`, not in
`akeyless`. -/
def exCatalogOther : Catalog where
  foreign_tables := [⟨"public", "gamma"⟩]
  pg_foreign_table := []
  regclassText := fun _ => ""
  pg_attribute := []
  pg_description := []
  foreign_table_constraints := []
  table_constraints := []
  constraint_column_usage := []

end Db

namespace Db

/-! ## Lifecycle lemmas -/

theorem close_eq (m : PostgresManager) :
    PostgresManager.close m =
      Except.ok ⟨m.conn.map (fun _ => HandleState.hclosed),
                 m.cur.map (fun _ => HandleState.hclosed)⟩ := by
  rcases m with ⟨conn, cur⟩
  rcases conn with _ | h1 <;> rcases cur with _ | h2 <;> rfl

theorem exitCtx_eq (m : PostgresManager) :
    PostgresManager.exitCtx m =
      Except.ok (⟨m.conn.map (fun _ => HandleState.hclosed),
                  m.cur.map (fun _ => HandleState.hclosed)⟩, false) := by
  rcases m with ⟨conn, cur⟩
  rcases conn with _ | h1 <;> rcases cur with _ | h2 <;> rfl

/-- **C7** — `close` raises no error and is idempotent: on a never-connected
manager it is a no-op returning the unchanged state, on any manager it
succeeds, and after a successful connect two successive `close` calls both
succeed. -/
theorem close_noError_idempotent :
    PostgresManager.close PostgresManager.init =
      Except.ok PostgresManager.init ∧
    (∀ m : PostgresManager, ∃ m', PostgresManager.close m = Except.ok m') ∧
    (∃ m1 m2,
      PostgresManager.close
          (PostgresManager.connect_with_url PostgresManager.init) =
        Except.ok m1 ∧
      PostgresManager.close m1 = Except.ok m2) := by
  refine ⟨rfl, fun m => ⟨_, close_eq m⟩, ⟨_, _, close_eq _, close_eq _⟩⟩

/-- **C8** — `__enter__` returns the manager itself with no side effect (so
it opens nothing), and on every exit path of a `with` block `__exit__` runs
the close behaviour (the final state has every present handle closed),
while an error raised inside the block propagates to the caller
unswallowed. -/
theorem enter_exit_spec :
    (∀ m : PostgresManager, PostgresManager.enterCtx m = m) ∧
    (∀ (α : Type) (m : PostgresManager)
        (body : PostgresManager → PostgresManager × Except String α),
      (PostgresManager.runWith m body).1 =
        ⟨(body m).1.conn.map (fun _ => HandleState.hclosed),
         (body m).1.cur.map (fun _ => HandleState.hclosed)⟩) ∧
    (∀ (α : Type) (m : PostgresManager)
        (body : PostgresManager → PostgresManager × Except String α) (e : String),
      (body m).2 = Except.error e →
      (PostgresManager.runWith m body).2 = Except.error e) := by
  refine ⟨fun m => rfl, ?_, ?_⟩
  · intro α m body
    rcases hb : body m with ⟨m2, r⟩
    simp only [PostgresManager.runWith, PostgresManager.enterCtx, hb]
    rw [exitCtx_eq m2]
    rcases r with e | a <;> simp
  · intro α m body e he
    rcases hb : body m with ⟨m2, r⟩
    rw [hb] at he
    simp only at he
    subst he
    simp only [PostgresManager.runWith, PostgresManager.enterCtx, hb]
    rw [exitCtx_eq m2]
    simp

/-- **C8 witness** — a concrete `with` block that raises `"boom"`: the error
is observed by the caller after cleanup. -/
theorem enter_exit_spec_witness :
    (PostgresManager.runWith PostgresManager.init
        (fun m => (m, (Except.error "boom" : Except String Nat)))).2 =
      Except.error "boom" :=
  enter_exit_spec.2.2 Nat PostgresManager.init
    (fun m => (m, Except.error "boom")) "boom" rfl

/-- **C9 counterexample** — after a successful connect, `close` succeeds but
leaves both attributes still present (referencing now-closed handles);
the manager does NOT return to the state with both absent. -/
theorem close_leaves_handles_present :
    PostgresManager.close
        (PostgresManager.connect_with_url PostgresManager.init) =
      Except.ok ⟨some HandleState.hclosed, some HandleState.hclosed⟩ ∧
    (⟨some HandleState.hclosed, some HandleState.hclosed⟩ :
        PostgresManager).conn ≠ Option.none := by
  exact ⟨close_eq _, by simp⟩

/-- **C9 (amended)** — every reachable manager state has the connection and
cursor either both absent or both present; the manager is created with both
absent and connect makes both present; `close` releases the handles (they
become closed) but preserves their presence rather than resetting the
attributes to absent. -/
theorem lifecycle_invariant :
    (∀ m : PostgresManager, PostgresManager.Reachable m →
      m.conn.isSome = m.cur.isSome) ∧
    PostgresManager.init.conn = Option.none ∧
    PostgresManager.init.cur = Option.none ∧
    (∀ m : PostgresManager,
      (PostgresManager.connect_with_url m).conn.isSome = true ∧
      (PostgresManager.connect_with_url m).cur.isSome = true) ∧
    (∀ m m' : PostgresManager, PostgresManager.close m = Except.ok m' →
      m'.conn = m.conn.map (fun _ => HandleState.hclosed) ∧
      m'.cur = m.cur.map (fun _ => HandleState.hclosed) ∧
      m'.conn.isSome = m.conn.isSome ∧ m'.cur.isSome = m.cur.isSome) := by
  refine ⟨?_, rfl, rfl, fun m => ⟨rfl, rfl⟩, ?_⟩
  · intro m hm
    induction hm with
    | init => rfl
    | connect m _ _ => rfl
    | close_ok m m' _ hc ih =>
      rw [close_eq m] at hc
      injection hc with hc
      subst hc
      simpa using ih
  · intro m m' hc
    rw [close_eq m] at hc
    injection hc with hc
    subst hc
    simp

/-- **C9 (amended) witness** — the invariant instantiated at the reachable
state obtained by connecting and then closing a fresh manager. -/
theorem lifecycle_invariant_witness :
    (⟨some HandleState.hclosed, some HandleState.hclosed⟩ :
        PostgresManager).conn.isSome =
      (⟨some HandleState.hclosed, some HandleState.hclosed⟩ :
        PostgresManager).cur.isSome :=
  lifecycle_invariant.1 _
    (PostgresManager.Reachable.close_ok _ _
      (PostgresManager.Reachable.connect _ PostgresManager.Reachable.init)
      (close_eq _))

/-! ## String-building lemmas for `get_table_definition` -/

theorem data_commaNl : (",\n" : String).data = [',', '\n'] := rfl

theorem data_space : (" " : String).data = [' '] := rfl

theorem dropWhile_all_append (l1 : List Char) (c : Char) (l2 : List Char)
    (h1 : ∀ x ∈ l1, isStripChar x = true) (hc : isStripChar c = false) :
    List.dropWhile isStripChar (l1 ++ c :: l2) = c :: l2 := by
  induction l1 with
  | nil => simp [List.dropWhile_cons, hc]
  | cons a l ih =>
    have ha := h1 a (by simp)
    simp only [List.cons_append, List.dropWhile_cons, ha, if_true]
    exact ih (fun x hx => h1 x (by simp [hx]))

theorem rstripList_spec (xs : List Char) (c : Char) (ys : List Char)
    (hc : isStripChar c = false) (hys : ∀ y ∈ ys, isStripChar y = true) :
    rstripList (xs ++ c :: ys) = xs ++ [c] := by
  unfold rstripList
  rw [show (xs ++ c :: ys).reverse = ys.reverse ++ c :: xs.reverse by simp]
  rw [dropWhile_all_append _ _ _ (fun x hx => hys x (by simpa using hx)) hc]
  simp

theorem rstripList_header (l : List Char) :
    rstripList (l ++ [' ', '(', '\n']) = l ++ [' ', '('] := by
  have hshape : l ++ [' ', '(', '\n'] = (l ++ [' ']) ++ '(' :: ['\n'] := by
    simp
  rw [hshape, rstripList_spec _ '(' ['\n'] (by decide) (by decide)]
  simp

theorem lineChars_ne_nil (r : DefRow) : lineChars r ≠ [] := by
  intro h
  have := congrArg List.length h
  simp [lineChars, lineStr, String.data_append, data_space] at this

theorem foldl_lines_data (rows : List DefRow) :
    ∀ acc : String,
      (rows.foldl
        (fun acc row =>
          acc ++ (row.column_name ++ " " ++ row.column_type ++ ",\n")) acc).data
        = acc.data ++ linesChars rows := by
  induction rows with
  | nil => intro acc; simp [linesChars]
  | cons r rs ih =>
    intro acc
    rw [List.foldl_cons, ih]
    simp [linesChars, lineChars, lineStr, String.data_append, data_commaNl,
      data_space]

theorem rstrip_linesChars (rows : List DefRow) : rows ≠ [] →
    (∀ last, rows.getLast? = some last →
      isStripChar ((lineChars last).getLastD ' ') = false) →
    ∀ xs : List Char,
      rstripList (xs ++ linesChars rows) =
        xs ++ (pyJoin ",\n" (rows.map lineStr)).data := by
  induction rows with
  | nil => intro h; cases h rfl
  | cons r rs ih =>
    intro _ hlast xs
    cases rs with
    | nil =>
      have hl : lineChars r ≠ [] := lineChars_ne_nil r
      have hgood : isStripChar ((lineChars r).getLastD ' ') = false :=
        hlast r (by simp)
      have hgetD : (lineChars r).getLastD ' ' = (lineChars r).getLast hl := by
        rw [List.getLastD_eq_getLast?, List.getLast?_eq_getLast _ hl]
        rfl
      rw [hgetD] at hgood
      have hdecomp := List.dropLast_append_getLast hl
      have hshape : xs ++ linesChars [r] =
          (xs ++ (lineChars r).dropLast) ++
            ((lineChars r).getLast hl) :: [',', '\n'] := by
        conv_lhs => rw [linesChars, linesChars, ← hdecomp]
        simp
      rw [hshape, rstripList_spec _ _ _ hgood (by decide)]
      have : (pyJoin ",\n" ([r].map lineStr)).data = lineChars r := by
        simp [pyJoin, lineChars]
      rw [this]
      conv_rhs => rw [← hdecomp]
      simp
    | cons r' rs' =>
      have hlast' : ∀ last, (r' :: rs').getLast? = some last →
          isStripChar ((lineChars last).getLastD ' ') = false := by
        intro last h
        exact hlast last (by rw [List.getLast?_cons_cons]; exact h)
      have hshape : xs ++ linesChars (r :: r' :: rs') =
          (xs ++ lineChars r ++ [',', '\n']) ++ linesChars (r' :: rs') := by
        conv_lhs => rw [linesChars]
        simp
      rw [hshape, ih (List.cons_ne_nil r' rs') hlast' _]
      simp only [List.map_cons, pyJoin, String.data_append, data_commaNl,
        lineChars]
      simp

theorem mem_insertSorted (le : α → α → Bool) (x : α) (l : List α) (y : α) :
    y ∈ insertSorted le x l ↔ y = x ∨ y ∈ l := by
  induction l with
  | nil => simp [insertSorted]
  | cons a l ih =>
    simp only [insertSorted]
    split
    · simp
    · simp [ih]
      tauto

theorem mem_insertionSort (le : α → α → Bool) (l : List α) (y : α) :
    y ∈ insertionSort le l ↔ y ∈ l := by
  induction l with
  | nil => simp [insertionSort]
  | cons a l ih =>
    simp [insertionSort, mem_insertSorted, ih]

/-- **C1** — the `get_def_stmt` introspection rows do not depend on the
requested table name at all; every returned row belongs to schema
`akeyless` with no constraint on the table; concretely, on a catalog with
tables `alpha` and `beta` the definition produced for `alpha` carries the
requested name in its header but also contains `beta`'s column (and
symmetrically for `beta`). -/
theorem get_table_definition_unfiltered :
    (∀ (cat : Catalog) (t₁ t₂ : String),
      get_def_rows cat t₁ = get_def_rows cat t₂) ∧
    (∀ (cat : Catalog) (t : String),
      (get_def_rows cat t).all
        (fun row => row.schema_name == "akeyless") = true) ∧
    get_table_definition exCatalog "alpha" =
      "CREATE TABLE alpha (\na_id integer,\nb_id integer\n);" ∧
    get_table_definition exCatalog "beta" =
      "CREATE TABLE beta (\na_id integer,\nb_id integer\n);" := by
  refine ⟨fun cat t₁ t₂ => rfl, ?_, by decide, by decide⟩
  intro cat t
  rw [List.all_eq_true]
  intro row hrow
  simp only [get_def_rows, List.mem_map] at hrow
  obtain ⟨jr, hjr, hproj⟩ := hrow
  rw [mem_insertionSort] at hjr
  rw [List.mem_filter] at hjr
  have := hjr.2
  simp only [Bool.and_eq_true, beq_iff_eq] at this
  subst hproj
  simpa using this.1

/-- **C3** — `get_all_table_names` returns exactly the foreign-table names
of schema `akeyless` from `information_schema.foreign_tables`, in driver
(scan) order, and the empty sequence when that schema has no foreign
table. -/
theorem get_all_table_names_spec (cat : Catalog) :
    get_all_table_names cat =
      (cat.foreign_tables.filter
          (fun ft => ft.foreign_table_schema == "akeyless")).map
        (fun ft => ft.foreign_table_name) ∧
    (∀ nm, nm ∈ get_all_table_names cat ↔
      ∃ ft ∈ cat.foreign_tables,
        ft.foreign_table_schema = "akeyless" ∧ ft.foreign_table_name = nm) ∧
    ((∀ ft ∈ cat.foreign_tables, ft.foreign_table_schema ≠ "akeyless") →
      get_all_table_names cat = []) := by
  have hmain : get_all_table_names cat =
      (cat.foreign_tables.filter
          (fun ft => ft.foreign_table_schema == "akeyless")).map
        (fun ft => ft.foreign_table_name) := by
    simp [get_all_table_names, all_table_names_rows, List.map_map,
      Function.comp]
  refine ⟨hmain, ?_, ?_⟩
  · intro nm
    rw [hmain]
    simp only [List.mem_map, List.mem_filter, beq_iff_eq]
    constructor
    · rintro ⟨ft, ⟨hmem, hsch⟩, hnm⟩
      exact ⟨ft, hmem, hsch, hnm⟩
    · rintro ⟨ft, hmem, hsch, hnm⟩
      exact ⟨ft, ⟨hmem, hsch⟩, hnm⟩
  · intro hnone
    rw [hmain]
    rw [List.filter_eq_nil_iff.mpr (fun ft hft => by
      simpa using hnone ft hft)]
    rfl

/-- **C3 witness** — on a catalog whose only foreign table is in schema
`public`, `get_all_table_names` returns the empty sequence. -/
theorem get_all_table_names_spec_witness :
    get_all_table_names exCatalogOther = [] :=
  (get_all_table_names_spec exCatalogOther).2.2 (by decide)

/-- **C4** — for any nonzero number of introspected rows (whose last
column line does not itself end in a stripped character, as `format_type`
output never does), `get_table_definition` returns the header
`CREATE TABLE <name> (`, one `<column_name> <column_type>` line per row
joined by `",\n"` (so every line but the last ends in a comma and no
trailing comma precedes the closing parenthesis), and the terminator
`"\n);"`. -/
theorem get_table_definition_format (cat : Catalog) (t : String)
    (r : DefRow) (rs : List DefRow)
    (hrows : get_def_rows cat t = r :: rs)
    (hlast : isStripChar
      ((lineChars ((r :: rs).getLast (List.cons_ne_nil r rs))).getLastD ' ')
      = false) :
    get_table_definition cat t =
      "CREATE TABLE " ++ t ++ " (\n" ++
        pyJoin ",\n" ((r :: rs).map lineStr) ++ "\n);" := by
  apply String.ext
  unfold get_table_definition
  rw [hrows]
  simp only [String.data_append, pyRstripCommaNl]
  rw [foldl_lines_data]
  rw [rstrip_linesChars (r :: rs) (List.cons_ne_nil r rs) ?_ _]
  · simp [String.data_append]
  · intro last h
    rw [List.getLast?_eq_getLast _ (List.cons_ne_nil r rs)] at h
    cases h
    exact hlast

/-- **C4 witness** — the format theorem applied to the two-table example
catalog, where `alpha`'s definition has two column lines with no trailing
comma. -/
theorem get_table_definition_format_witness :
    get_table_definition exCatalog "alpha" =
      "CREATE TABLE alpha (\n" ++
        pyJoin ",\n"
          (([⟨"akeyless", "alpha", "a_id", "integer", Option.none⟩,
             ⟨"akeyless", "beta", "b_id", "integer", Option.none⟩] :
            List DefRow).map lineStr) ++ "\n);" :=
  get_table_definition_format exCatalog "alpha"
    ⟨"akeyless", "alpha", "a_id", "integer", Option.none⟩
    [⟨"akeyless", "beta", "b_id", "integer", Option.none⟩]
    (by decide) (by decide)

/-- **C10** — when introspection yields zero rows, `get_table_definition`
still succeeds and returns exactly `CREATE TABLE <name> (` followed by a
newline and `);` (the strip removes the newline after the opening
parenthesis and the terminator re-adds it). -/
theorem get_table_definition_empty (cat : Catalog) (t : String)
    (hrows : get_def_rows cat t = []) :
    get_table_definition cat t = "CREATE TABLE " ++ t ++ " (\n);" := by
  apply String.ext
  unfold get_table_definition
  rw [hrows]
  simp only [List.foldl_nil, String.data_append, pyRstripCommaNl]
  rw [rstripList_header]
  simp

/-- **C10 witness** — on a catalog with no rows at all, the definition for
table `t` is `CREATE TABLE t (\n);`. -/
theorem get_table_definition_empty_witness :
    get_table_definition exCatalogOther "t" = "CREATE TABLE " ++ "t" ++ " (\n);" :=
  get_table_definition_empty exCatalogOther "t" (by decide)

/-! ## JSON serialization lemmas -/

theorem encodeScalar_total (f : PyVal → String) (v : PyVal) :
    ∃ s, encodeScalar (some f) v = Except.ok s := by
  cases v <;> exact ⟨_, rfl⟩

theorem exceptMap_total (f : α → Except String β) (l : List α)
    (h : ∀ a ∈ l, ∃ b, f a = Except.ok b) :
    ∃ bs, exceptMap f l = Except.ok bs := by
  induction l with
  | nil => exact ⟨[], rfl⟩
  | cons a as ih =>
    obtain ⟨b, hb⟩ := h a (by simp)
    obtain ⟨bs, hbs⟩ := ih (fun x hx => h x (by simp [hx]))
    refine ⟨b :: bs, ?_⟩
    simp only [exceptMap, hb, hbs]
    rfl

theorem encodeEntry_total (f : PyVal → String) (p : String × PyVal) :
    ∃ s, encodeEntry (some f) p = Except.ok s := by
  obtain ⟨s, hs⟩ := encodeScalar_total f p.2
  refine ⟨jsonQuote p.1 ++ ": " ++ s, ?_⟩
  simp only [encodeEntry, hs]
  rfl

theorem encodeDictIndented_total (f : PyVal → String) (pad : String)
    (d : List (String × PyVal)) :
    ∃ s, encodeDictIndented (some f) pad d = Except.ok s := by
  obtain ⟨es, hes⟩ :=
    exceptMap_total (encodeEntry (some f)) d (fun p _ => encodeEntry_total f p)
  cases es with
  | nil =>
    refine ⟨"\x7b\x7d", ?_⟩
    simp only [encodeDictIndented, hes]
  | cons e es' =>
    refine ⟨"\x7b\n" ++
      pyJoin ",\n" ((e :: es').map (fun x => pad ++ "    " ++ x)) ++
      "\n" ++ pad ++ "\x7d", ?_⟩
    simp only [encodeDictIndented, hes]

theorem json_dumps_total (f : PyVal → String)
    (l : List (List (String × PyVal))) :
    ∃ s, json_dumps (some f) l = Except.ok s := by
  obtain ⟨items, hitems⟩ :=
    exceptMap_total (encodeDictIndented (some f) "    ") l
      (fun d _ => encodeDictIndented_total f "    " d)
  cases items with
  | nil =>
    refine ⟨"[]", ?_⟩
    simp only [json_dumps, hitems]
  | cons i is =>
    refine ⟨"[\n" ++
      pyJoin ",\n" ((i :: is).map (fun s => "    " ++ s)) ++ "\n]", ?_⟩
    simp only [json_dumps, hitems]

/-- **C2** — `run_sql`'s serialization never fails: every result set
serializes to JSON text, with datetime values rendered as their ISO-8601
text, JSON-native values rendered natively, and every other value rendered
as its `str()` text instead of raising. -/
theorem run_sql_serialization :
    (∀ (columns : List String) (res : List (List PyVal)),
      ∃ s, run_sql columns res = Except.ok s) ∧
    (∀ iso, encodeScalar (some datetime_handler) (PyVal.datetime iso) =
      Except.ok (jsonQuote iso)) ∧
    encodeScalar (some datetime_handler) PyVal.none = Except.ok "null" ∧
    (∀ b, encodeScalar (some datetime_handler) (PyVal.bool b) =
      Except.ok (if b then "true" else "false")) ∧
    (∀ i, encodeScalar (some datetime_handler) (PyVal.int i) =
      Except.ok (toString i)) ∧
    (∀ s, encodeScalar (some datetime_handler) (PyVal.str s) =
      Except.ok (jsonQuote s)) ∧
    (∀ s, encodeScalar (some datetime_handler) (PyVal.other s) =
      Except.ok (jsonQuote (pyStr (PyVal.other s)))) := by
  refine ⟨?_, fun iso => rfl, rfl, fun b => rfl, fun i => rfl, fun s => rfl,
    fun s => rfl⟩
  intro columns res
  exact json_dumps_total datetime_handler
    (res.map (fun row => pyDictOfPairs (columns.zip row)))

/-! ## Python `dict` lemmas -/

theorem mem_pyDictInsert_key (d : List (String × α)) (k : String) (v : α)
    (p : String × α) (hp : p ∈ pyDictInsert d k v) :
    p.1 = k ∨ ∃ q ∈ d, q.1 = p.1 := by
  unfold pyDictInsert at hp
  split at hp
  · rw [List.mem_map] at hp
    obtain ⟨q, hq, hpe⟩ := hp
    by_cases h : q.1 == k
    · rw [if_pos h] at hpe
      subst hpe
      exact Or.inl rfl
    · rw [if_neg h] at hpe
      subst hpe
      exact Or.inr ⟨q, hq, rfl⟩
  · rw [List.mem_append] at hp
    rcases hp with hp | hp
    · exact Or.inr ⟨p, hp, rfl⟩
    · simp at hp
      subst hp
      exact Or.inl rfl

theorem pyDictInsert_key_present (d : List (String × α)) (k : String) (v : α) :
    ∃ p ∈ pyDictInsert d k v, p.1 = k := by
  unfold pyDictInsert
  split
  · next h =>
    rw [List.any_eq_true] at h
    obtain ⟨q, hq, hqk⟩ := h
    refine ⟨(k, v), ?_, rfl⟩
    rw [List.mem_map]
    exact ⟨q, hq, by rw [if_pos hqk]⟩
  · exact ⟨(k, v), by simp, rfl⟩

theorem pyDictInsert_key_preserved (d : List (String × α)) (k : String)
    (v : α) (q : String × α) (hq : q ∈ d) :
    ∃ p ∈ pyDictInsert d k v, p.1 = q.1 := by
  unfold pyDictInsert
  split
  · by_cases h : q.1 == k
    · refine ⟨(k, v), ?_, by simpa using (beq_iff_eq.mp h).symm⟩
      rw [List.mem_map]
      exact ⟨q, hq, by rw [if_pos h]⟩
    · refine ⟨q, ?_, rfl⟩
      rw [List.mem_map]
      exact ⟨q, hq, by rw [if_neg h]⟩
  · exact ⟨q, by simp [hq], rfl⟩

theorem pyDictInsert_values (d : List (String × α)) (k : String) (v : α)
    (f : String → α) (hd : ∀ q ∈ d, q.2 = f q.1) (hv : v = f k) :
    ∀ p ∈ pyDictInsert d k v, p.2 = f p.1 := by
  intro p hp
  unfold pyDictInsert at hp
  split at hp
  · rw [List.mem_map] at hp
    obtain ⟨q, hq, hpe⟩ := hp
    by_cases h : q.1 == k
    · rw [if_pos h] at hpe
      subst hpe
      exact hv
    · rw [if_neg h] at hpe
      subst hpe
      exact hd q hq
  · rw [List.mem_append] at hp
    rcases hp with hp | hp
    · exact hd p hp
    · simp at hp
      subst hp
      exact hv

theorem pyDict_loop_values (f : String → α) (l : List String) :
    ∀ d : List (String × α), (∀ q ∈ d, q.2 = f q.1) →
      ∀ p ∈ l.foldl (fun d t => pyDictInsert d t (f t)) d, p.2 = f p.1 := by
  induction l with
  | nil => intro d hd; simpa using hd
  | cons t l ih =>
    intro d hd
    rw [List.foldl_cons]
    exact ih _ (pyDictInsert_values d t (f t) f hd rfl)

theorem pyDict_loop_keys (f : String → α) (l : List String) :
    ∀ d : List (String × α),
      (∀ p ∈ l.foldl (fun d t => pyDictInsert d t (f t)) d,
        p.1 ∈ l ∨ ∃ q ∈ d, q.1 = p.1) ∧
      (∀ k, (k ∈ l ∨ ∃ q ∈ d, q.1 = k) →
        ∃ p ∈ l.foldl (fun d t => pyDictInsert d t (f t)) d, p.1 = k) := by
  induction l with
  | nil =>
    intro d
    refine ⟨fun p hp => Or.inr ⟨p, hp, rfl⟩, ?_⟩
    rintro k (h | ⟨q, hq, hk⟩)
    · cases h
    · exact ⟨q, hq, hk⟩
  | cons t l ih =>
    intro d
    constructor
    · intro p hp
      rw [List.foldl_cons] at hp
      rcases (ih (pyDictInsert d t (f t))).1 p hp with h | ⟨q, hq, hk⟩
      · exact Or.inl (by simp [h])
      · rcases mem_pyDictInsert_key d t (f t) q hq with h | ⟨q2, hq2, hk2⟩
        · exact Or.inl (by simp [← hk, h])
        · exact Or.inr ⟨q2, hq2, by rw [hk2, hk]⟩
    · rintro k (hk | ⟨q, hq, hk⟩)
      · rw [List.foldl_cons]
        rcases List.mem_cons.mp hk with h | h
        · subst h
          obtain ⟨p, hp, hpk⟩ := pyDictInsert_key_present d k (f k)
          exact (ih _).2 k (Or.inr ⟨p, hp, hpk⟩)
        · exact (ih _).2 k (Or.inl h)
      · rw [List.foldl_cons]
        obtain ⟨p, hp, hpk⟩ := pyDictInsert_key_preserved d t (f t) q hq
        exact (ih _).2 k (Or.inr ⟨p, hp, by rw [hpk, hk]⟩)

theorem pyDict_of_fun_lookup (f : String → α) (l : List String) (k : String) :
    pyDictGet? (l.foldl (fun d t => pyDictInsert d t (f t)) []) k =
      if k ∈ l then some (f k) else none := by
  unfold pyDictGet?
  split
  · next hmem =>
    obtain ⟨p, hp, hpk⟩ :=
      (pyDict_loop_keys f l ([] : List (String × α))).2 k (Or.inl hmem)
    rcases hfind : List.find? (fun p => p.1 == k)
        (l.foldl (fun d t => pyDictInsert d t (f t)) []) with _ | q
    · exfalso
      rw [List.find?_eq_none] at hfind
      exact hfind p hp (by simp [hpk])
    · have hq := List.mem_of_find?_eq_some hfind
      have hqk : q.1 = k := by
        have := List.find?_some hfind
        simpa using this
      have hqv := pyDict_loop_values f l ([] : List (String × α))
        (by intro q hq; cases hq) q hq
      rw [hfind]
      simp [hqv, hqk]
  · next hmem =>
    rcases hfind : List.find? (fun p => p.1 == k)
        (l.foldl (fun d t => pyDictInsert d t (f t)) []) with _ | q
    · rw [hfind]
      rfl
    · exfalso
      have hq := List.mem_of_find?_eq_some hfind
      have hqk : q.1 = k := by
        have := List.find?_some hfind
        simpa using this
      rcases (pyDict_loop_keys f l ([] : List (String × α))).1 q hq with
        h | ⟨q2, hq2, _⟩
      · exact hmem (hqk ▸ h)
      · cases hq2

theorem foldl_append_singleton (f : α → β) (l : List α) :
    ∀ acc : List β,
      l.foldl (fun a x => a ++ [f x]) acc = acc ++ l.map f := by
  induction l with
  | nil => simp
  | cons a l ih =>
    intro acc
    rw [List.foldl_cons, ih]
    simp

/-- **C5** — `get_table_definitions_for_prompt` is exactly the definitions
of the names of `get_all_table_names`, in that order, joined with a blank
line (two newline characters); `get_table_definition_map_for_embeddings`
maps exactly those names, each to `get_table_definition` of that name. -/
theorem prompt_and_map_spec (cat : Catalog) :
    get_table_definitions_for_prompt cat =
      pyJoin "\n\n"
        ((get_all_table_names cat).map (get_table_definition cat)) ∧
    ∀ nm, pyDictGet? (get_table_definition_map_for_embeddings cat) nm =
      if nm ∈ get_all_table_names cat then some (get_table_definition cat nm)
      else none := by
  constructor
  · unfold get_table_definitions_for_prompt
    simp only [foldl_append_singleton, List.nil_append]
  · intro nm
    unfold get_table_definition_map_for_embeddings
    exact pyDict_of_fun_lookup (get_table_definition cat)
      (get_all_table_names cat) nm

/-! ## `get_related_tables` lemmas -/

theorem mem_values_pyDictInsert (d : List (String × List String)) (k : String)
    (v : List String) (x : String)
    (hagree : ∀ p ∈ d, p.1 = k → p.2 = v) :
    (∃ p ∈ pyDictInsert d k v, x ∈ p.2) ↔
      ((∃ p ∈ d, x ∈ p.2) ∨ x ∈ v) := by
  unfold pyDictInsert
  split
  · next hany =>
    have hid : d.map (fun p => if p.1 == k then (k, v) else p) = d := by
      have hfix : ∀ p ∈ d, (if p.1 == k then (k, v) else p) = id p := by
        intro p hp
        by_cases h : p.1 == k
        · rw [if_pos h]
          have h1 : p.1 = k := beq_iff_eq.mp h
          have h2 : p.2 = v := hagree p hp h1
          calc (k, v) = (p.1, p.2) := by rw [h1, h2]
            _ = id p := rfl
        · rw [if_neg h]
          rfl
      rw [List.map_congr_left hfix, List.map_id]
    rw [hid]
    constructor
    · exact Or.inl
    · rintro (h | hx)
      · exact h
      · rw [List.any_eq_true] at hany
        obtain ⟨q, hq, hqk⟩ := hany
        exact ⟨q, hq, by rw [hagree q hq (beq_iff_eq.mp hqk)]; exact hx⟩
  · constructor
    · rintro ⟨p, hp, hx⟩
      rw [List.mem_append] at hp
      rcases hp with hp | hp
      · exact Or.inl ⟨p, hp, hx⟩
      · simp at hp
        subst hp
        exact Or.inr hx
    · rintro (⟨p, hp, hx⟩ | hx)
      · exact ⟨p, by simp [hp], hx⟩
      · exact ⟨(k, v), by simp, hx⟩

theorem foldl_append_mem (d : List (String × List String)) :
    ∀ (acc : List String) (x : String),
      x ∈ d.foldl (fun acc p => acc ++ p.2) acc ↔
        x ∈ acc ∨ ∃ p ∈ d, x ∈ p.2 := by
  induction d with
  | nil => intro acc x; simp
  | cons p d ih =>
    intro acc x
    rw [List.foldl_cons, ih, List.mem_append]
    simp only [List.mem_cons]
    constructor
    · rintro ((h | h) | ⟨q, hq, hx⟩)
      · exact Or.inl h
      · exact Or.inr ⟨p, Or.inl rfl, h⟩
      · exact Or.inr ⟨q, Or.inr hq, hx⟩
    · rintro (h | ⟨q, hq | hq, hx⟩)
      · exact Or.inl (Or.inl h)
      · subst hq
        exact Or.inl (Or.inr hx)
      · exact Or.inr ⟨q, hq, hx⟩

theorem incomingQuery_length (cat : Catalog) (t : String) (n : Nat)
    (l : List String) (h : incomingQuery cat t n = Except.ok l) :
    l.length ≤ n := by
  unfold incomingQuery at h
  cases hsub : scalarSubquery (fkSubqueryRows cat t) with
  | error e =>
    simp only [hsub] at h
    exact (Except.noConfusion h)
  | ok sub =>
    simp only [hsub] at h
    injection h with h
    rw [← h]
    exact List.length_take_le _ _

theorem outgoingQuery_length (cat : Catalog) (t : String) (n : Nat) :
    (outgoingQuery cat t n).length ≤ n :=
  List.length_take_le _ _

theorem relatedLoop_spec (cat : Catalog) (n : Nat) (rest : List String) :
    ∀ d d', relatedLoop cat n rest d = Except.ok d' →
      (∀ p ∈ d, ∃ l, incomingQuery cat p.1 n = Except.ok l ∧
        p.2 = l ++ outgoingQuery cat p.1 n) →
      (∀ p ∈ d', ∃ l, incomingQuery cat p.1 n = Except.ok l ∧
        p.2 = l ++ outgoingQuery cat p.1 n) ∧
      (∀ x, (∃ p ∈ d', x ∈ p.2) ↔
        ((∃ p ∈ d, x ∈ p.2) ∨ ∃ t ∈ rest,
          (∃ l, incomingQuery cat t n = Except.ok l ∧ x ∈ l) ∨
            x ∈ outgoingQuery cat t n)) := by
  induction rest with
  | nil =>
    intro d d' h hd
    simp only [relatedLoop] at h
    injection h with h
    subst h
    refine ⟨hd, fun x => ?_⟩
    simp
  | cons t rest ih =>
    intro d d' h hd
    simp only [relatedLoop] at h
    cases hin : incomingQuery cat t n with
    | error e => rw [hin] at h; cases h
    | ok inc =>
      rw [hin] at h
      have hagree : ∀ p ∈ d, p.1 = t →
          p.2 = inc ++ outgoingQuery cat t n := by
        intro p hp hpk
        obtain ⟨l, hl, hv⟩ := hd p hp
        rw [hpk] at hl hv
        rw [hin] at hl
        injection hl with hl
        rw [hv, hl]
      have hd2 : ∀ p ∈ pyDictInsert d t (inc ++ outgoingQuery cat t n),
          ∃ l, incomingQuery cat p.1 n = Except.ok l ∧
            p.2 = l ++ outgoingQuery cat p.1 n := by
        intro p hp
        unfold pyDictInsert at hp
        split at hp
        · rw [List.mem_map] at hp
          obtain ⟨q, hq, hpe⟩ := hp
          by_cases hqt : q.1 == t
          · rw [if_pos hqt] at hpe
            subst hpe
            exact ⟨inc, hin, rfl⟩
          · rw [if_neg hqt] at hpe
            subst hpe
            exact hd q hq
        · rw [List.mem_append] at hp
          rcases hp with hp | hp
          · exact hd p hp
          · simp at hp
            subst hp
            exact ⟨inc, hin, rfl⟩
      obtain ⟨hvals, hmem⟩ := ih _ _ h hd2
      refine ⟨hvals, fun x => ?_⟩
      rw [hmem x, mem_values_pyDictInsert d t _ x hagree]
      have hvx : x ∈ inc ++ outgoingQuery cat t n ↔
          ((∃ l, incomingQuery cat t n = Except.ok l ∧ x ∈ l) ∨
            x ∈ outgoingQuery cat t n) := by
        rw [List.mem_append]
        constructor
        · rintro (h1 | h2)
          · exact Or.inl ⟨inc, hin, h1⟩
          · exact Or.inr h2
        · rintro (⟨l, hl, h1⟩ | h2)
          · rw [hin] at hl
            injection hl with hl
            subst hl
            exact Or.inl h1
          · exact Or.inr h2
      rw [hvx]
      simp only [List.mem_cons]
      constructor
      · rintro ((hA | hv) | ⟨t2, ht2, hpred⟩)
        · exact Or.inl hA
        · exact Or.inr ⟨t, Or.inl rfl, hv⟩
        · exact Or.inr ⟨t2, Or.inr ht2, hpred⟩
      · rintro (hA | ⟨t2, ht2 | ht2, hpred⟩)
        · exact Or.inl (Or.inl hA)
        · subst ht2
          exact Or.inl (Or.inr hpred)
        · exact Or.inr ⟨t2, ht2, hpred⟩

/-- **C6** — whenever `get_related_tables` returns a result, each
direction's lookup was capped at `n` rows per input table, and the result
is the de-duplicated union over all input tables of both directions: it
contains no duplicate names and holds exactly the names produced by some
input table's incoming or outgoing lookup (no order guaranteed after the
set collapse). -/
theorem get_related_tables_spec (cat : Catalog) (table_list : List String)
    (n : Nat) (res : List String)
    (h : get_related_tables cat table_list n = Except.ok res) :
    res.Nodup ∧
    (∀ t l, incomingQuery cat t n = Except.ok l → l.length ≤ n) ∧
    (∀ t, (outgoingQuery cat t n).length ≤ n) ∧
    (∀ x, x ∈ res ↔ ∃ t ∈ table_list,
      (∃ l, incomingQuery cat t n = Except.ok l ∧ x ∈ l) ∨
        x ∈ outgoingQuery cat t n) := by
  unfold get_related_tables at h
  cases hloop : relatedLoop cat n table_list [] with
  | error e =>
    simp only [hloop] at h
    exact (Except.noConfusion h)
  | ok d =>
    simp only [hloop] at h
    injection h with h
    obtain ⟨hvals, hmem⟩ := relatedLoop_spec cat n table_list [] d hloop
      (by intro p hp; cases hp)
    refine ⟨?_, fun t l hl => incomingQuery_length cat t n l hl,
      fun t => outgoingQuery_length cat t n, ?_⟩
    · rw [← h]
      exact List.nodup_dedup _
    · intro x
      rw [← h, List.mem_dedup, foldl_append_mem d [] x, hmem x]
      simp

/-- **C6 witness** — on the three-table catalog, `get_related_tables` for
`["a"]` with limit 2 returns `["b", "c"]` (one incoming, one outgoing),
which is duplicate-free and exactly the union of the two lookups. -/
theorem get_related_tables_spec_witness :
    (["b", "c"] : List String).Nodup ∧
    (∀ x, x ∈ (["b", "c"] : List String) ↔ ∃ t ∈ (["a"] : List String),
      (∃ l, incomingQuery exCatalogRel t 2 = Except.ok l ∧ x ∈ l) ∨
        x ∈ outgoingQuery exCatalogRel t 2) :=
  ⟨(get_related_tables_spec exCatalogRel ["a"] 2 ["b", "c"] rfl).1,
   (get_related_tables_spec exCatalogRel ["a"] 2 ["b", "c"] rfl).2.2.2⟩

end Db
